import Mathlib

/-
Verification development for the tile-grid and geometry-sampling engine of
the alaska_diva repository (src/modules/raster.py, class Raster).

Shallow embedding conventions:
- CRS (spatial) coordinates are rationals (Python floats are modelled exactly
  over ℚ; the floor division `//` on Python floats is Int.floor of the exact
  quotient).
- Pixel indices and shapes are integers (Python ints).
- A raster cell value is a `Val`: a finite rational or one of the IEEE
  non-finite values NaN / +Inf / -Inf, which is what numpy isnan / isinf
  distinguish.
- The opened GDAL datasource is modelled as a total function
  `src : ℤ → ℤ → ℤ → Val` giving the value of (1-based band, row, column);
  `band.ReadAsArray(x, y, c, r)` entry [i][j] is `src band (y+i) (x+j)`.
- Fallible code returns `Except Err`; `Err` enumerates the Python exceptions
  the modelled paths can raise.
-/

namespace Alaska

/-- Model of a raster cell value: a finite rational or one of the IEEE
non-finite values that numpy isnan / isinf detect. -/
inductive Val where
  | fin (q : ℚ)
  | nan
  | pinf
  | ninf
deriving DecidableEq

/-- Model of numpy isnan on one entry. -/
def Val.isNan : Val → Bool
  | .nan => true
  | _ => false

/-- Model of numpy isinf on one entry (true for both infinities). -/
def Val.isInf : Val → Bool
  | .pinf => true
  | .ninf => true
  | _ => false

/-- Effect of the two in-place assignments
`arr[np.isnan(arr)] = nr; arr[np.isinf(arr)] = nr` on one entry. -/
def Val.subst (nr : ℚ) (v : Val) : Val :=
  if v.isNan || v.isInf then .fin nr else v

/-- Python exceptions raised by the modelled code paths. -/
inductive Err where
  | indexError       -- numpy IndexError: index out of bounds
  | typeError        -- ogr.CreateGeometryFromWkt applied to a list (MULTI branch)
  | idIndexError     -- geom_id[ii] with too short an id list
  | invalidBoundsX   -- ValueError: Image x-size should be greater than 0
  | invalidBoundsY   -- ValueError: Image y-size should be greater than 0
deriving DecidableEq

/-- State of an initialized Raster object (the fields of raster.py's
`Raster.__init__` that the tile-grid / sampling engine reads): shape
`[bands, rows, cols]`, the six GDAL geotransform entries, the stored
no-data value and the open datasource. -/
structure Raster where
  nb : ℤ
  rows : ℤ
  cols : ℤ
  t0 : ℚ
  t1 : ℚ
  t2 : ℚ
  t3 : ℚ
  t4 : ℚ
  t5 : ℚ
  nodatavalue : Option ℚ
  src : ℤ → ℤ → ℤ → Val

/-- Embedding of `Raster.get_coords` (raster.py lines 607-632): converts pixel
locations to image coordinates; with `pixel_center` the half-pixel constant is
added, otherwise zero. -/
def get_coords (xy_list : List (ℚ × ℚ)) (pixel_size : ℚ × ℚ) (tie_point : ℚ × ℚ)
    (pixel_center : Bool) : List (ℚ × ℚ) :=
  let add_const : ℚ × ℚ :=
    if pixel_center then (pixel_size.1 / 2, pixel_size.2 / 2) else (0, 0)
  xy_list.map (fun xy =>
    (xy.1 * pixel_size.1 + tie_point.1 + add_const.1,
     xy.2 * pixel_size.2 + tie_point.2 + add_const.2))

/-- Embedding of `Raster.get_locations` (raster.py lines 634-651): converts
global coordinates to pixel locations with Python float floor division
`(coord - tie_point) // pixel_size`; a `None` entry maps to the `[None, None]`
sentinel, modelled as `none`. -/
def get_locations (coords_list : List (Option (ℚ × ℚ))) (pixel_size : ℚ × ℚ)
    (tie_point : ℚ × ℚ) : List (Option (ℤ × ℤ)) :=
  coords_list.map (fun c =>
    match c with
    | some coord =>
        some (⌊(coord.1 - tie_point.1) / pixel_size.1⌋,
              ⌊(coord.2 - tie_point.2) / pixel_size.2⌋)
    | none => none)

/-- The `bound_coords` / `coords_type` arguments of get_pixel_bounds and
make_tile_grid: absent, pixel-space, or CRS-space bounds. -/
inductive BoundSpec where
  | noBounds
  | pixelBounds (xmin xmax ymin ymax : ℤ)
  | crsBounds (xmin xmax ymin ymax : ℚ)
deriving DecidableEq

/-- Minimum of a nonempty integer list, modelling numpy `.min()` on the
four converted corner locations. -/
def listMin (l : List ℤ) : ℤ := l.foldl min (l.headD 0)

/-- Maximum of a nonempty integer list, modelling numpy `.max()`. -/
def listMax (l : List ℤ) : ℤ := l.foldl max (l.headD 0)

/-- Shared tail of `Raster.get_pixel_bounds` (raster.py lines 705-721): the
one-sided clamping of the window into the raster extent followed by the
degenerate-window checks. -/
def clampCheck (R : Raster) (xmin xmax ymin ymax : ℤ) :
    Except Err (ℤ × ℤ × ℤ × ℤ) :=
  let xmin1 := if xmin < 0 then 0 else xmin
  let xmax1 := if xmax > R.cols then R.cols else xmax
  let ymin1 := if ymin < 0 then 0 else ymin
  let ymax1 := if ymax > R.rows then R.rows else ymax
  if xmin1 ≥ xmax1 then .error .invalidBoundsX
  else if ymin1 ≥ ymax1 then .error .invalidBoundsY
  else .ok (xmin1, xmax1, ymin1, ymax1)

/-- Embedding of `Raster.get_pixel_bounds` (raster.py lines 675-721).
With CRS bounds the four corners are converted through get_locations, the
window is the componentwise min / max of the four pixel locations, and the
result is clamped and checked; with no bounds the full extent is returned. -/
def get_pixel_bounds (R : Raster) (b : BoundSpec) : Except Err (ℤ × ℤ × ℤ × ℤ) :=
  match b with
  | .noBounds => .ok (0, R.cols, 0, R.rows)
  | .pixelBounds xmin xmax ymin ymax => clampCheck R xmin xmax ymin ymax
  | .crsBounds xmn xmx ymn ymx =>
      let coords_list : List (Option (ℚ × ℚ)) :=
        [some (xmn, ymx), some (xmx, ymx), some (xmx, ymn), some (xmn, ymn)]
      let locs := get_locations coords_list (R.t1, R.t5) (R.t0, R.t3)
      let xs := locs.map (fun o => (o.getD (0, 0)).1)
      let ys := locs.map (fun o => (o.getD (0, 0)).2)
      clampCheck R (listMin xs) (listMax xs) (listMin ys) (listMax ys)

/-- Model of Python `xrange(a, b, s)` for integer arguments: for a positive
step, the arithmetic progression a, a+s, a+2s, ... of length ⌈(b-a)/s⌉
(empty when b ≤ a); for a negative step with a < b the range is also empty,
matching Python. (A zero step raises in Python and never occurs in the
modelled call sites, which are guarded by positivity hypotheses.) -/
def xrangeZ (a b s : ℤ) : List ℤ :=
  if 0 < s then
    (List.range ((b - a + s - 1) / s).toNat).map (fun (k : ℕ) => a + (k : ℤ) * s)
  else []

/-- One entry of `Raster.tile_grid` as built by make_tile_grid (raster.py
lines 767-770): pixel-space block coordinates (x, y, cols, rows), the CRS
tie point of the tile's top-left corner, the closed five-vertex boundary
ring, and the first pixel of the parent grid. -/
structure Tile where
  block_coords : ℤ × ℤ × ℤ × ℤ
  tie_point : ℚ × ℚ
  bound_coords : List (ℚ × ℚ)
  first_pixel : ℤ × ℤ
deriving DecidableEq

/-- The tile descriptor make_tile_grid appends for loop position (x, y)
(raster.py lines 745-770), with the edge clipping of cols / rows and the
tie point computed by get_coords with pixel_center false. -/
def mkTileAt (R : Raster) (tile_xsize tile_ysize xmin xmax ymin ymax x y : ℤ) : Tile :=
  let rows : ℤ := if y + tile_ysize < ymax then tile_ysize else ymax - y
  let cols : ℤ := if x + tile_xsize < xmax then tile_xsize else xmax - x
  let tie_pt : ℚ × ℚ :=
    (get_coords [((x : ℚ), (y : ℚ))] (R.t1, R.t5) (R.t0, R.t3) false).headD (0, 0)
  { block_coords := (x, y, cols, rows)
    tie_point := tie_pt
    bound_coords :=
      [tie_pt,
       (tie_pt.1 + R.t1 * (cols : ℚ), tie_pt.2),
       (tie_pt.1 + R.t1 * (cols : ℚ), tie_pt.2 + R.t5 * (rows : ℚ)),
       (tie_pt.1, tie_pt.2 + R.t5 * (rows : ℚ)),
       tie_pt]
    first_pixel := (xmin, ymin) }

/-- The list of tiles make_tile_grid appends for given pixel bounds: the
double loop of raster.py lines 743-770 with y outer and x inner. -/
def make_tile_grid_tiles (R : Raster) (tile_xsize tile_ysize xmin xmax ymin ymax : ℤ) :
    List Tile :=
  (xrangeZ ymin ymax tile_ysize).flatMap (fun y =>
    (xrangeZ xmin xmax tile_xsize).map (fun x =>
      mkTileAt R tile_xsize tile_ysize xmin xmax ymin ymax x y))

/-- Embedding of `Raster.make_tile_grid` (raster.py lines 723-772).
The method appends the new tiles to the raster's current `tile_grid` list
(`grid0` here; `__init__` starts it empty and the method never clears it)
and sets `ntiles` to the length of the combined list. -/
def make_tile_grid (R : Raster) (grid0 : List Tile) (tile_xsize tile_ysize : ℤ)
    (b : BoundSpec) : Except Err (List Tile) :=
  match get_pixel_bounds R b with
  | .error e => .error e
  | .ok (xmin, xmax, ymin, ymax) =>
      .ok (grid0 ++ make_tile_grid_tiles R tile_xsize tile_ysize xmin xmax ymin ymax)

/-- Result of a tile read: a 2D array when exactly one band is requested,
else a 3D array (get_tile, raster.py lines 800-812). -/
inductive TileArr where
  | two (a : List (List Val))
  | three (a : List (List (List Val)))
deriving DecidableEq

/-- Model of `band.ReadAsArray(x, y, cols, rows)` for the 1-based band
`band`: the rows × cols block of values with entry [i][j] the datasource
value at global row y+i, column x+j. -/
def readBlock2D (R : Raster) (band : ℤ) (bc : ℤ × ℤ × ℤ × ℤ) : List (List Val) :=
  (List.range bc.2.2.2.toNat).map (fun (i : ℕ) =>
    (List.range bc.2.2.1.toNat).map (fun (j : ℕ) =>
      R.src band (bc.2.1 + (i : ℤ)) (bc.1 + (j : ℤ))))

/-- Embedding of `Raster.get_tile` (raster.py lines 774-819). The default
`nan_replacement` is the stored no-data value if one exists, else 0; the
default band list is 1..nb. With exactly one requested band the freshly
read 2D array is returned as is (the `finite_only` substitution block sits
inside the multi-band branch); with several bands the stacked 3D array has
its NaN / Inf entries replaced when `finite_only` is set. -/
def get_tile (R : Raster) (bands : Option (List ℤ)) (block_coords : ℤ × ℤ × ℤ × ℤ)
    (finite_only : Bool) (nan_replacement : Option ℚ) : TileArr :=
  let nr : ℚ :=
    match nan_replacement with
    | none => match R.nodatavalue with
              | none => 0
              | some v => v
    | some v => v
  let bandsL : List ℤ :=
    match bands with
    | none => xrangeZ 1 (R.nb + 1) 1
    | some l => l
  if bandsL.length = 1 then
    .two (readBlock2D R (bandsL.headD 1) block_coords)
  else
    let arr := bandsL.map (fun b => readBlock2D R b block_coords)
    if finite_only then .three (arr.map (List.map (List.map (Val.subst nr))))
    else .three arr

/-- A WKT geometry string accepted by extract_geom: POINT or MULTIPOINT. -/
inductive Wkt where
  | point (x y : ℚ)
  | multipoint (pts : List (ℚ × ℚ))
deriving DecidableEq

/-- Embedding of the id_geom_list construction of extract_geom (raster.py
lines 935-945). A POINT string contributes one part with identifier
`id_1`. A string containing MULTI reaches
`ogr.CreateGeometryFromWkt(wkt_strings)`, which is applied to the whole
input list instead of the current string and raises a TypeError; this is
modelled as the corresponding error. Accessing `geom_id[ii]` past the end
of the id list raises an IndexError. -/
def parse_geoms (ids : List String) :
    List (ℕ × Wkt) → List (String × ℚ × ℚ) → Except Err (List (String × ℚ × ℚ))
  | [], acc => .ok acc
  | iw :: rest, acc =>
      match iw.2 with
      | .multipoint _ => .error Err.typeError
      | .point x y =>
          match ids[iw.1]? with
          | none => .error Err.idIndexError
          | some gid => parse_geoms ids rest (acc ++ [(gid ++ "_1", (x, y))])

def parse_id_geom_list (wkts : List Wkt) (ids : List String) :
    Except Err (List (String × ℚ × ℚ)) :=
  parse_geoms ids wkts.enum []

/-- Model of `ogr Geometry.Intersects` for a POINT tested against the
rectangular POLYGON that extract_geom builds from a tile's bound_coords
(raster.py lines 952-956): true iff the point lies in the closed rectangle
spanned by the ring's two opposite corners (GEOS intersection includes the
boundary). -/
def tile_intersects_point (t : Tile) (p : ℚ × ℚ) : Bool :=
  let c0 := t.bound_coords.headD (0, 0)
  let c2 := (t.bound_coords.drop 2).headD (0, 0)
  decide (min c0.1 c2.1 ≤ p.1 ∧ p.1 ≤ max c0.1 c2.1 ∧
          min c0.2 c2.2 ≤ p.2 ∧ p.2 ≤ max c0.2 c2.2)

/-- Model of numpy bounds checking of the scalar indices in `arr[y, x]` or
`arr[band_order, y, x]` on a rows × cols (trailing) shape: an index in
[-n, n) is accepted (a negative index wraps around), anything else raises
IndexError; the pair of resolved nonnegative indices is returned. numpy
validates the scalar indices of a fancy-indexing expression up front. -/
def npCheck (rows cols y x : ℤ) : Except Err (ℤ × ℤ) :=
  if -rows ≤ y ∧ y < rows ∧ -cols ≤ x ∧ x < cols then
    .ok ((if y < 0 then y + rows else y), (if x < 0 then x + cols else x))
  else .error Err.indexError

/-- Model of one entry of a numpy fancy band index on the leading axis of
a 3D array with nb bands: values in [-nb, nb) are accepted (negative wrap),
anything else raises IndexError. -/
def npBand (nb b : ℤ) : Except Err ℤ :=
  if -nb ≤ b ∧ b < nb then .ok (if b < 0 then b + nb else b)
  else .error Err.indexError

/-- The band values extract_geom gathers for one geometry from the tile
array read by `read_array(tile['block_coords'])` (raster.py lines 961-981):
the geometry's CRS point is converted to a pixel offset against the tile's
own tie point with get_locations, then the tile array is indexed; a
single-band raster is indexed `array[y, x]` (one value), otherwise
`array[band_order, y, x]`. -/
def sample_value (R : Raster) (band_order : List ℤ) (t : Tile) (g : ℚ × ℚ) :
    Except Err (List Val) :=
  let bc := t.block_coords
  let px : ℤ := ⌊(g.1 - t.tie_point.1) / R.t1⌋
  let py : ℤ := ⌊(g.2 - t.tie_point.2) / R.t5⌋
  match npCheck bc.2.2.2 bc.2.2.1 py px with
  | .error e => .error e
  | .ok iyx =>
      if R.nb = 1 then
        .ok [R.src 1 (bc.2.1 + iyx.1) (bc.1 + iyx.2)]
      else
        band_order.mapM (fun b =>
          match npBand R.nb b with
          | .error e => .error e
          | .ok b0 => .ok (R.src (b0 + 1) (bc.2.1 + iyx.1) (bc.1 + iyx.2)))

/-- Mutable state of the extract_geom loop over tiles: the accumulating
output slots (`tile_samp_output`; `none` models a slot still holding its
initial empty list `[]`) and the list of block coordinates passed to
`read_array`, in call order. -/
structure EState where
  slots : List (Option (String × List Val))
  reads : List (ℤ × ℤ × ℤ × ℤ)
deriving DecidableEq

/-- The `samp_ids` selection of extract_geom (raster.py line 956) paired
with the selected parts: the index-tagged parts whose geometry intersects
the tile polygon. -/
def samp_of (parts : List (String × ℚ × ℚ)) (t : Tile) :
    List (ℕ × String × ℚ × ℚ) :=
  parts.enum.filter (fun p => tile_intersects_point t p.2.2)

/-- Evaluation of a Python list comprehension whose element computation can
raise: elements are computed left to right and the first exception aborts
the whole comprehension. -/
def map_values (f : α → Except Err β) : List α → Except Err (List β)
  | [] => .ok []
  | a :: l =>
      match f a with
      | .error e => .error e
      | .ok v =>
          match map_values f l with
          | .error e => .error e
          | .ok vs => .ok (v :: vs)

/-- One iteration of the extract_geom tile loop (raster.py lines 951-984):
if any geometry intersects the tile, the tile block is read (recorded in
`reads`), the band values of every intersecting geometry are computed, and
each corresponding output slot is overwritten. -/
def process_tile (R : Raster) (band_order : List ℤ)
    (parts : List (String × ℚ × ℚ)) (st : EState) (t : Tile) :
    Except Err EState :=
  let samp := samp_of parts t
  if samp.length > 0 then
    match map_values (fun p => sample_value R band_order t p.2.2) samp with
    | .error e => .error e
    | .ok vals =>
        .ok { slots := (samp.zip vals).foldl
                (fun sl pv => sl.set pv.1.1 (some (pv.1.2.1, pv.2))) st.slots,
              reads := st.reads ++ [t.block_coords] }
  else .ok st

/-- The extract_geom loop over the whole tile grid; a Python exception
aborts the loop. -/
def run_tiles (R : Raster) (band_order : List ℤ)
    (parts : List (String × ℚ × ℚ)) (st : EState) :
    List Tile → Except Err EState
  | [] => .ok st
  | t :: rest =>
      match process_tile R band_order parts st t with
      | .error e => .error e
      | .ok st2 => run_tiles R band_order parts st2 rest

/-- What a completed extract_geom call produced: the returned
`tile_samp_output` list, the tile blocks read from the datasource, and the
tile grid the call worked through (`self.tile_grid` after the internal
make_tile_grid call). -/
structure ExtractResult where
  output : List (Option (String × List Val))
  reads : List (ℤ × ℤ × ℤ × ℤ)
  grid : List Tile
deriving DecidableEq

/-- The tile size extract_geom hands to make_tile_grid: the tile_size
keyword argument when given, else the default `(self.shape[1],
self.shape[2])` = (rows, cols), passed as (tile_xsize, tile_ysize). -/
def tsOf (R : Raster) (tile_size : Option (ℤ × ℤ)) : ℤ × ℤ :=
  match tile_size with
  | some t => t
  | none => (R.rows, R.cols)

/-- The band order extract_geom uses: the argument, defaulting to 0..nb-1. -/
def boOf (R : Raster) (band_order : Option (List ℤ)) : List ℤ :=
  match band_order with
  | none => xrangeZ 0 R.nb 1
  | some l => l

/-- The geometry ids extract_geom uses: the argument, defaulting to the
decimal strings "1".."N". -/
def idsOf (wkts : List Wkt) (geom_id : Option (List String)) : List String :=
  match geom_id with
  | none => (List.range wkts.length).map (fun i => Nat.repr (i + 1))
  | some l => l

/-- Embedding of `Raster.extract_geom` (raster.py lines 893-986).
`grid0` is the raster's tile_grid before the call (empty on a freshly
initialized raster); the internal make_tile_grid call appends to it. -/
def extract_geom (R : Raster) (grid0 : List Tile) (wkts : List Wkt)
    (geom_id : Option (List String)) (band_order : Option (List ℤ))
    (tile_size : Option (ℤ × ℤ)) : Except Err ExtractResult :=
  let ts : ℤ × ℤ := tsOf R tile_size
  let bo : List ℤ := boOf R band_order
  let ids : List String := idsOf wkts geom_id
  match parse_id_geom_list wkts ids with
  | .error e => .error e
  | .ok parts =>
      match make_tile_grid R grid0 ts.1 ts.2 .noBounds with
      | .error e => .error e
      | .ok grid =>
          match run_tiles R bo parts ⟨parts.map (fun _ => none), []⟩ grid with
          | .error e => .error e
          | .ok st => .ok ⟨st.slots, st.reads, grid⟩

/-
Concrete rasters used to instantiate scenarios and witnesses.
-/

/-- The spec's scenario raster: 8 × 8 pixels, one band, geotransform
(0, 1, 0, 8, 0, -1), datasource value 10·row + col. -/
def R8 : Raster :=
  { nb := 1, rows := 8, cols := 8,
    t0 := 0, t1 := 1, t2 := 0, t3 := 8, t4 := 0, t5 := -1,
    nodatavalue := none,
    src := fun _ r c => .fin (10 * r + c) }

/-- A raster with 10 columns and 4 rows for the edge-width example. -/
def R10 : Raster :=
  { nb := 1, rows := 4, cols := 10,
    t0 := 0, t1 := 1, t2 := 0, t3 := 4, t4 := 0, t5 := -1,
    nodatavalue := none,
    src := fun _ r c => .fin (10 * r + c) }

/-- A non-square raster: 2 rows and 6 columns. -/
def R26 : Raster :=
  { nb := 1, rows := 2, cols := 6,
    t0 := 0, t1 := 1, t2 := 0, t3 := 2, t4 := 0, t5 := -1,
    nodatavalue := none,
    src := fun _ r c => .fin (10 * r + c) }

/-- A 2 × 2 single-band raster whose datasource holds NaN at (0, 0). -/
def RN : Raster :=
  { nb := 1, rows := 2, cols := 2,
    t0 := 0, t1 := 1, t2 := 0, t3 := 2, t4 := 0, t5 := -1,
    nodatavalue := none,
    src := fun _ r c => if r = 0 && c = 0 then .nan else .fin (10 * r + c) }

/-- A 2 × 2 two-band raster whose datasource holds NaN at (0, 0) of every
band, with a stored no-data value of -5. -/
def RN2 : Raster :=
  { nb := 2, rows := 2, cols := 2,
    t0 := 0, t1 := 1, t2 := 0, t3 := 2, t4 := 0, t5 := -1,
    nodatavalue := some (-5),
    src := fun _ r c => if r = 0 && c = 0 then .nan else .fin (10 * r + c) }

/-- Invariant of the output slots: a filled slot carries the identifier of
the part it belongs to. -/
@[reducible] def slots_ids_ok (parts : List (String × ℚ × ℚ))
    (slots : List (Option (String × List Val))) : Prop :=
  ∀ (i : ℕ) (v : String × List Val), slots[i]? = some (some v) →
    ∃ p : String × ℚ × ℚ, parts[i]? = some p ∧ v.1 = p.1

/-- The result of the concrete two-point extract_geom call used to witness
C10: the first point resolves in the first tile, the second point (far
outside the raster) leaves its slot as the initial empty list. -/
def RES10 : ExtractResult :=
  { output := [some (Nat.repr 1 ++ "_1", [Val.fin 22]), none],
    reads := [(0, 0, 4, 4)],
    grid := [mkTileAt R8 4 4 0 8 0 8 0 0, mkTileAt R8 4 4 0 8 0 8 4 0,
             mkTileAt R8 4 4 0 8 0 8 0 4, mkTileAt R8 4 4 0 8 0 8 4 4] }

/-- The result of the one-point extract_geom call used to witness C4. -/
def RES4 : ExtractResult :=
  { output := [some (Nat.repr 1 ++ "_1", [Val.fin 0])],
    reads := [(0, 0, 4, 4)],
    grid := [mkTileAt R8 4 4 0 8 0 8 0 0, mkTileAt R8 4 4 0 8 0 8 4 0,
             mkTileAt R8 4 4 0 8 0 8 0 4, mkTileAt R8 4 4 0 8 0 8 4 4] }

/-
Lemmas about xrangeZ and the tile grid.
-/

/-- Membership in the model of xrange with a positive step. -/
theorem mem_xrangeZ {a b s x : ℤ} (hs : 0 < s) :
    x ∈ xrangeZ a b s ↔ ∃ k : ℕ, x = a + (k : ℤ) * s ∧ x < b := by
  unfold xrangeZ
  rw [if_pos hs]
  constructor
  · intro hx
    obtain ⟨k, hk, rfl⟩ := List.mem_map.mp hx
    refine ⟨k, rfl, ?_⟩
    have h1 : (k : ℤ) < (b - a + s - 1) / s := Int.lt_toNat.mp (List.mem_range.mp hk)
    have h2 : ((k : ℤ) + 1) * s ≤ b - a + s - 1 :=
      (Int.le_ediv_iff_mul_le hs).mp (Int.lt_iff_add_one_le.mp h1)
    rw [add_mul, one_mul] at h2
    linarith
  · rintro ⟨k, rfl, hlt⟩
    refine List.mem_map.mpr ⟨k, List.mem_range.mpr ?_, rfl⟩
    rw [Int.lt_toNat, Int.lt_iff_add_one_le, Int.le_ediv_iff_mul_le hs, add_mul, one_mul]
    linarith

/-- The xrange model with a positive step has no duplicates. -/
theorem nodup_xrangeZ {a b s : ℤ} (hs : 0 < s) : (xrangeZ a b s).Nodup := by
  unfold xrangeZ
  rw [if_pos hs]
  refine List.Nodup.map ?_ (List.nodup_range _)
  intro k1 k2 h
  have h2 : a + (k1 : ℤ) * s = a + (k2 : ℤ) * s := h
  have h3 : (k1 : ℤ) * s = (k2 : ℤ) * s := by linarith
  have h4 : (k1 : ℤ) = (k2 : ℤ) := mul_right_cancel₀ (by omega) h3
  exact_mod_cast h4

/-- The block coordinates of the tile built at loop position (x, y). -/
theorem mkTileAt_block (R : Raster) (tw th xmin xmax ymin ymax x y : ℤ) :
    (mkTileAt R tw th xmin xmax ymin ymax x y).block_coords
      = (x, y, (if x + tw < xmax then tw else xmax - x),
               (if y + th < ymax then th else ymax - y)) := rfl

/-- The tie point of the tile built at loop position (x, y). -/
theorem mkTileAt_tie (R : Raster) (tw th xmin xmax ymin ymax x y : ℤ) :
    (mkTileAt R tw th xmin xmax ymin ymax x y).tie_point
      = ((x : ℚ) * R.t1 + R.t0, (y : ℚ) * R.t5 + R.t3) := by
  simp [mkTileAt, get_coords]

/-- The code's edge clipping `if x + s < b then s else b - x` equals
min s (b - x). -/
theorem clip_eq_min (s x b : ℤ) : (if x + s < b then s else b - x) = min s (b - x) := by
  split <;> omega

/-- Membership in the built tile list. -/
theorem mem_grid_tiles {R : Raster} {tw th xmin xmax ymin ymax : ℤ} {t : Tile} :
    t ∈ make_tile_grid_tiles R tw th xmin xmax ymin ymax ↔
      ∃ y ∈ xrangeZ ymin ymax th, ∃ x ∈ xrangeZ xmin xmax tw,
        t = mkTileAt R tw th xmin xmax ymin ymax x y := by
  simp only [make_tile_grid_tiles, List.mem_flatMap, List.mem_map]
  constructor
  · rintro ⟨y, hy, x, hx, rfl⟩
    exact ⟨y, hy, x, hx, rfl⟩
  · rintro ⟨y, hy, x, hx, rfl⟩
    exact ⟨y, hy, x, hx, rfl⟩

/-- C2: make_tile_grid emits tiles in row-major order (y outer, x inner);
every tile's width is min(tileWidth, xmax - x) and height is
min(tileHeight, ymax - y), so a non-edge tile has full size and the last
tile in each row / column is clipped to the remainder, never padded past
the bounds and never skipped; cols = 10 with tileWidth = 4 yields widths
[4, 4, 2]; and the 8 × 8 scenario raster with tile size 4 × 4 yields
exactly the four tiles (0,0,4,4), (4,0,4,4), (0,4,4,4), (4,4,4,4) in that
order. -/
theorem claim_C2 :
    (∀ (R : Raster) (tw th xmin xmax ymin ymax : ℤ), 0 < tw → 0 < th →
      ((make_tile_grid_tiles R tw th xmin xmax ymin ymax).map Tile.block_coords =
        (xrangeZ ymin ymax th).flatMap (fun y =>
          (xrangeZ xmin xmax tw).map (fun x =>
            (x, y, min tw (xmax - x), min th (ymax - y)))) ∧
       ∀ t ∈ make_tile_grid_tiles R tw th xmin xmax ymin ymax,
         0 < t.block_coords.2.2.1 ∧ 0 < t.block_coords.2.2.2 ∧
         t.block_coords.1 + t.block_coords.2.2.1 ≤ xmax ∧
         t.block_coords.2.1 + t.block_coords.2.2.2 ≤ ymax ∧
         (t.block_coords.1 + tw < xmax → t.block_coords.2.2.1 = tw) ∧
         (t.block_coords.2.1 + th < ymax → t.block_coords.2.2.2 = th))) ∧
    (((make_tile_grid R10 [] 4 4 .noBounds).toOption.getD []).map
        (fun t => t.block_coords.2.2.1) = [4, 4, 2]) ∧
    ((make_tile_grid R8 [] 4 4 .noBounds).toOption.getD []).map Tile.block_coords
      = [(0, 0, 4, 4), (4, 0, 4, 4), (0, 4, 4, 4), (4, 4, 4, 4)] := by
  refine ⟨?_, by decide, by decide⟩
  intro R tw th xmin xmax ymin ymax htw hth
  constructor
  · simp only [make_tile_grid_tiles, List.map_flatMap, List.map_map, Function.comp_def,
      mkTileAt_block, clip_eq_min]
  · intro t ht
    rw [mem_grid_tiles] at ht
    obtain ⟨y, hy, x, hx, rfl⟩ := ht
    obtain ⟨ky, -, hylt⟩ := (mem_xrangeZ hth).mp hy
    obtain ⟨kx, -, hxlt⟩ := (mem_xrangeZ htw).mp hx
    rw [mkTileAt_block]
    refine ⟨?_, ?_, ?_, ?_, ?_, ?_⟩ <;> dsimp only <;> split_ifs <;> omega

/-- Witness for C2 at concrete inputs: tile size 4 × 4 on the 8 × 8 raster. -/
theorem claim_C2_witness :
    (0 : ℤ) < 4 ∧
    (make_tile_grid_tiles R8 4 4 0 8 0 8).map Tile.block_coords =
      (xrangeZ 0 8 4).flatMap (fun y =>
        (xrangeZ 0 8 4).map (fun x => (x, y, min 4 (8 - x), min 4 (8 - y)))) :=
  ⟨by decide, (claim_C2.1 R8 4 4 0 8 0 8 (by decide) (by decide)).1⟩

/-- C3: converting an integer pixel pair to a coordinate with get_coords
(pixel_center false) and back with get_locations returns exactly the same
pixel pair, with no rounding drift, for any nonzero pixel sizes. -/
theorem claim_C3 (px py : ℤ) (pw ph tx ty : ℚ) (hpw : pw ≠ 0) (hph : ph ≠ 0) :
    get_locations
      ((get_coords [((px : ℚ), (py : ℚ))] (pw, ph) (tx, ty) false).map some)
      (pw, ph) (tx, ty) = [some (px, py)] := by
  simp [get_coords, get_locations]
  constructor
  · rw [mul_div_cancel_right₀ _ hpw, Int.floor_intCast]
  · rw [mul_div_cancel_right₀ _ hph, Int.floor_intCast]

/-- Witness for C3 at pixel (2, 3), pixel size (1/2, -1/2), tie (10, 20). -/
theorem claim_C3_witness :
    ((1 : ℚ)/2 ≠ 0) ∧
    get_locations
      ((get_coords [((2 : ℚ), (3 : ℚ))] ((1 : ℚ)/2, -(1 : ℚ)/2) (10, 20) false).map some)
      ((1 : ℚ)/2, -(1 : ℚ)/2) (10, 20) = [some (2, 3)] :=
  ⟨by norm_num, claim_C3 2 3 ((1 : ℚ)/2) (-(1 : ℚ)/2) 10 20 (by norm_num) (by norm_num)⟩

/-- C8: get_locations maps each coordinate (x, y) to the floor of
(x - tx)/pw and (y - ty)/ph — floor semantics, truncation toward negative
infinity regardless of the sign of ph — maps each None entry to the
(None, None) sentinel instead of raising, and preserves length and order. -/
theorem claim_C8 (cl : List (Option (ℚ × ℚ))) (pw ph tx ty : ℚ)
    (hpw : pw ≠ 0) (hph : ph ≠ 0) :
    (get_locations cl (pw, ph) (tx, ty)).length = cl.length ∧
    List.Forall₂ (fun c o =>
      match c with
      | none => o = none
      | some xy => ∃ px1 py1 : ℤ, o = some (px1, py1) ∧
          (px1 : ℚ) ≤ (xy.1 - tx) / pw ∧ (xy.1 - tx) / pw < px1 + 1 ∧
          (py1 : ℚ) ≤ (xy.2 - ty) / ph ∧ (xy.2 - ty) / ph < py1 + 1)
      cl (get_locations cl (pw, ph) (tx, ty)) := by
  refine ⟨by simp [get_locations], ?_⟩
  induction cl with
  | nil => simp [get_locations]
  | cons c rest ih =>
      rw [get_locations, List.map_cons]
      refine List.Forall₂.cons ?_ ih
      cases c with
      | none => rfl
      | some xy =>
          refine ⟨⌊(xy.1 - tx) / pw⌋, ⌊(xy.2 - ty) / ph⌋, rfl,
            Int.floor_le _, ?_, Int.floor_le _, ?_⟩
          · exact_mod_cast Int.lt_floor_add_one ((xy.1 - tx) / pw)
          · exact_mod_cast Int.lt_floor_add_one ((xy.2 - ty) / ph)

/-- Witness for C8 on a list with a point and a None entry. -/
theorem claim_C8_witness :
    ((2 : ℚ) ≠ 0) ∧
    ((get_locations [some ((3 : ℚ), (5 : ℚ)), none] (2, -2) (0, 0)).length = 2 ∧
     List.Forall₂ (fun c o =>
       match c with
       | none => o = none
       | some xy => ∃ px1 py1 : ℤ, o = some (px1, py1) ∧
           (px1 : ℚ) ≤ (xy.1 - 0) / 2 ∧ (xy.1 - 0) / 2 < px1 + 1 ∧
           (py1 : ℚ) ≤ (xy.2 - 0) / (-2) ∧ (xy.2 - 0) / (-2) < py1 + 1)
       [some ((3 : ℚ), (5 : ℚ)), none]
       (get_locations [some ((3 : ℚ), (5 : ℚ)), none] (2, -2) (0, 0))) :=
  ⟨by norm_num, claim_C8 [some ((3 : ℚ), (5 : ℚ)), none] 2 (-2) 0 0
    (by norm_num) (by norm_num)⟩

/-- The lower clamp `if x < 0 then 0 else x` is max x 0. -/
theorem clamp_low (x : ℤ) : (if x < 0 then 0 else x) = max x 0 := by
  split <;> omega

/-- The upper clamp `if x > c then c else x` is min x c. -/
theorem clamp_high (x c : ℤ) : (if x > c then c else x) = min x c := by
  split <;> omega

/-- Behaviour of the clamp-and-check tail of get_pixel_bounds: the clamped
window is (max xmin 0, min xmax cols, max ymin 0, min ymax rows); the result
is an error when that window is degenerate and the clamped window itself
otherwise. -/
theorem clampCheck_spec (R : Raster) (xmin xmax ymin ymax : ℤ) :
    ((min xmax R.cols ≤ max xmin 0 ∨ min ymax R.rows ≤ max ymin 0) →
      ∃ e, clampCheck R xmin xmax ymin ymax = .error e) ∧
    (max xmin 0 < min xmax R.cols → max ymin 0 < min ymax R.rows →
      clampCheck R xmin xmax ymin ymax =
        .ok (max xmin 0, min xmax R.cols, max ymin 0, min ymax R.rows)) := by
  unfold clampCheck
  simp only [clamp_low, clamp_high]
  constructor
  · intro hdeg
    split_ifs with hx hy
    · exact ⟨_, rfl⟩
    · exact ⟨_, rfl⟩
    · exfalso; omega
  · intro hx hy
    split_ifs with h5 h6
    · exfalso; omega
    · exfalso; omega
    · rfl

/-- C9: with explicit CRS bounds, get_pixel_bounds converts the four corner
coordinates through the coordinate-to-pixel floor mapping, clamps the
componentwise min / max window into [0, cols] × [0, rows], errors exactly
when the clamped window is degenerate, and otherwise returns the clamped
window; with no bounds it returns the full extent (0, cols, 0, rows). -/
theorem claim_C9 (R : Raster) (a b c d : ℚ) :
    get_pixel_bounds R .noBounds = .ok (0, R.cols, 0, R.rows) ∧
    ∀ cxmin cxmax cymin cymax : ℤ,
      cxmin = max (min ⌊(a - R.t0) / R.t1⌋ ⌊(b - R.t0) / R.t1⌋) 0 →
      cxmax = min (max ⌊(a - R.t0) / R.t1⌋ ⌊(b - R.t0) / R.t1⌋) R.cols →
      cymin = max (min ⌊(c - R.t3) / R.t5⌋ ⌊(d - R.t3) / R.t5⌋) 0 →
      cymax = min (max ⌊(c - R.t3) / R.t5⌋ ⌊(d - R.t3) / R.t5⌋) R.rows →
      ((cxmax ≤ cxmin ∨ cymax ≤ cymin) →
        ∃ e, get_pixel_bounds R (.crsBounds a b c d) = .error e) ∧
      (cxmin < cxmax → cymin < cymax →
        get_pixel_bounds R (.crsBounds a b c d) = .ok (cxmin, cxmax, cymin, cymax)) := by
  refine ⟨rfl, ?_⟩
  intro cxmin cxmax cymin cymax h1 h2 h3 h4
  subst h1 h2 h3 h4
  simp only [get_pixel_bounds, get_locations, List.map_cons, List.map_nil, Option.getD_some]
  generalize ⌊(a - R.t0) / R.t1⌋ = fa
  generalize ⌊(b - R.t0) / R.t1⌋ = fb
  generalize ⌊(c - R.t3) / R.t5⌋ = gc
  generalize ⌊(d - R.t3) / R.t5⌋ = gd
  have e1 : listMin [fa, fb, fb, fa] = min fa fb := by
    simp only [listMin, List.headD, List.foldl]
    omega
  have e2 : listMax [fa, fb, fb, fa] = max fa fb := by
    simp only [listMax, List.headD, List.foldl]
    omega
  have e3 : listMin [gd, gd, gc, gc] = min gc gd := by
    simp only [listMin, List.headD, List.foldl]
    omega
  have e4 : listMax [gd, gd, gc, gc] = max gc gd := by
    simp only [listMax, List.headD, List.foldl]
    omega
  rw [e1, e2, e3, e4]
  exact clampCheck_spec R (min fa fb) (max fa fb) (min gc gd) (max gc gd)

/-- Witness for C9: CRS bounds (1, 5, 2, 7) on the 8 × 8 scenario raster
give the pixel window (1, 5, 1, 6). -/
theorem claim_C9_witness :
    get_pixel_bounds R8 (.crsBounds 1 5 2 7) = .ok (1, 5, 1, 6) :=
  ((claim_C9 R8 1 5 2 7).2 1 5 1 6 (by norm_num [R8]) (by norm_num [R8])
    (by norm_num [R8]) (by norm_num [R8])).2 (by norm_num) (by norm_num)

/-- Helper: toNat of the integer literal 2. -/
theorem toNat_two : (2 : ℤ).toNat = 2 := rfl

/-- C5: get_tile is documented to replace every non-finite entry when
finite_only is set, for any band count, but the substitution block sits
inside the multi-band branch: a single-band read returns the NaN untouched
(first conjunct, the failing input), while the same data read through the
multi-band path is substituted (second conjunct), and the default
replacement falls back to the stored no-data value (third conjunct). -/
theorem claim_C5_eval :
    get_tile RN (some [1]) (0, 0, 2, 2) true (some (-1))
      = .two [[.nan, .fin 1], [.fin 10, .fin 11]] ∧
    get_tile RN2 (some [1, 2]) (0, 0, 2, 2) true (some (-1))
      = .three [[[.fin (-1), .fin 1], [.fin 10, .fin 11]],
                [[.fin (-1), .fin 1], [.fin 10, .fin 11]]] ∧
    get_tile RN2 (some [1, 2]) (0, 0, 2, 2) true none
      = .three [[[.fin (-5), .fin 1], [.fin 10, .fin 11]],
                [[.fin (-5), .fin 1], [.fin 10, .fin 11]]] := by
  refine ⟨?_, ?_, ?_⟩ <;>
    norm_num [get_tile, readBlock2D, RN, RN2, Val.subst, Val.isNan, Val.isInf,
      List.range_succ, List.range_zero, toNat_two, Function.comp]

/-- C7 counterexample: on the 8 × 8 raster with tile size 4 × 4, a second
identical make_tile_grid invocation leaves the raster's tile grid with 8
tiles while a single invocation produces 4, so the method is not
idempotent. -/
theorem claim_C7_counterexample :
    ((make_tile_grid R8 ((make_tile_grid R8 [] 4 4 .noBounds).toOption.getD []) 4 4
        .noBounds).toOption.getD []).length = 8 ∧
    ((make_tile_grid R8 [] 4 4 .noBounds).toOption.getD []).length = 4 := by
  constructor <;> decide

/-- C7 amended: make_tile_grid is deterministic but appends to the existing
tile grid instead of rebuilding it, so a second identical invocation leaves
the grid equal to the single-invocation grid concatenated with itself (the
tile count doubles); the single-invocation grid is the row-major tile list
over the full raster extent. -/
theorem claim_C7_amended (R : Raster) (tw th : ℤ) :
    make_tile_grid R [] tw th .noBounds
      = .ok (make_tile_grid_tiles R tw th 0 R.cols 0 R.rows) ∧
    make_tile_grid R ((make_tile_grid R [] tw th .noBounds).toOption.getD []) tw th
        .noBounds
      = .ok (make_tile_grid_tiles R tw th 0 R.cols 0 R.rows
             ++ make_tile_grid_tiles R tw th 0 R.cols 0 R.rows) := by
  constructor <;> simp [make_tile_grid, get_pixel_bounds, Except.toOption, Option.getD]

/-- The tile grid of the 8 × 8 scenario raster for tile size 4 × 4. -/
theorem grid8_eq :
    make_tile_grid R8 [] 4 4 .noBounds =
      .ok [mkTileAt R8 4 4 0 8 0 8 0 0, mkTileAt R8 4 4 0 8 0 8 4 0,
           mkTileAt R8 4 4 0 8 0 8 0 4, mkTileAt R8 4 4 0 8 0 8 4 4] := by
  have hxr : xrangeZ 0 8 4 = [0, 4] := by decide
  simp [make_tile_grid, get_pixel_bounds, make_tile_grid_tiles, hxr, R8]

/-- C1 counterexample: the point (4, 5.5) lies on the boundary shared by
the first two tiles of the 8 × 8 scenario grid, and extract_geom raises an
IndexError instead of resolving it from the first tile in scan order: in
the first tile the point's pixel offset is (4, 2), and column 4 is outside
the 4-wide tile array. -/
theorem claim_C1_counterexample :
    extract_geom R8 [] [Wkt.point 4 (11/2)] none none (some (4, 4))
      = .error Err.indexError := by
  rw [extract_geom]
  norm_num [tsOf, boOf, idsOf, parse_id_geom_list, parse_geoms, List.enum,
    List.enumFrom, grid8_eq]
  have ht0 : tile_intersects_point (mkTileAt R8 4 4 0 8 0 8 0 0) (4, 11 / 2) = true := by
    norm_num [tile_intersects_point, mkTileAt, get_coords, R8]
  have hsv : sample_value R8 (xrangeZ 0 R8.nb 1) (mkTileAt R8 4 4 0 8 0 8 0 0) (4, 11 / 2)
      = .error Err.indexError := by
    norm_num [sample_value, mkTileAt, get_coords, npCheck, R8]
  rw [run_tiles]
  norm_num [process_tile, samp_of, List.enum, List.enumFrom, List.filter, map_values,
    ht0, hsv]

/-- C1 amended: a sample point that spatially intersects more than one tile
(here any point (4, y) with 4 < y < 8, on the edge shared by the first two
tiles of the 4 × 4 grid) makes extract_geom raise an IndexError while
processing the first intersecting tile in row-major scan order — its pixel
offset within that tile equals the tile width — rather than resolving the
point from that tile; no (identifier, band-values) entry is produced. -/
theorem claim_C1_amended (y : ℚ) (h1 : 4 < y) (h2 : y < 8) :
    extract_geom R8 [] [Wkt.point 4 y] none none (some (4, 4))
      = .error Err.indexError := by
  rw [extract_geom]
  norm_num [tsOf, boOf, idsOf, parse_id_geom_list, parse_geoms, List.enum,
    List.enumFrom, grid8_eq]
  have ht0 : tile_intersects_point (mkTileAt R8 4 4 0 8 0 8 0 0) (4, y) = true := by
    norm_num [tile_intersects_point, mkTileAt, get_coords, R8]
    constructor
    · linarith
    · linarith
  have hsv : sample_value R8 (xrangeZ 0 R8.nb 1) (mkTileAt R8 4 4 0 8 0 8 0 0) (4, y)
      = .error Err.indexError := by
    norm_num [sample_value, mkTileAt, get_coords, npCheck, R8]
  rw [run_tiles]
  norm_num [process_tile, samp_of, List.enum, List.enumFrom, List.filter, map_values,
    ht0, hsv]

/-- Witness for the amended C1 at the concrete boundary point (4, 6.5). -/
theorem claim_C1_amended_witness :
    (4 : ℚ) < 13/2 ∧
    extract_geom R8 [] [Wkt.point 4 (13/2)] none none (some (4, 4))
      = .error Err.indexError :=
  ⟨by norm_num, claim_C1_amended (13/2) (by norm_num) (by norm_num)⟩

/-- The tile grid the default extract_geom call builds on the 2 × 6
raster. -/
theorem grid26_eq :
    make_tile_grid R26 [] 2 6 .noBounds =
      .ok [mkTileAt R26 2 6 0 6 0 2 0 0, mkTileAt R26 2 6 0 6 0 2 2 0,
           mkTileAt R26 2 6 0 6 0 2 4 0] := by
  have hx : xrangeZ 0 6 2 = [0, 2, 4] := by decide
  have hy : xrangeZ 0 2 6 = [0] := by decide
  simp [make_tile_grid, get_pixel_bounds, make_tile_grid_tiles, tsOf, hx, hy, R26]

/-- C6: called without an explicit tile_size, extract_geom defaults the
tile size to `(shape[1], shape[2])` = (rows, cols) and passes it to
make_tile_grid as (tile_xsize, tile_ysize) — axes swapped — so on the
non-square 2 × 6 raster the grid it builds has three 2 × 2 tiles instead
of a single whole-raster tile. -/
theorem claim_C6_eval :
    tsOf R26 none = (2, 6) ∧
    ((make_tile_grid R26 [] (tsOf R26 none).1 (tsOf R26 none).2 .noBounds).toOption.getD
        []).map Tile.block_coords = [(0, 0, 2, 2), (2, 0, 2, 2), (4, 0, 2, 2)] ∧
    (extract_geom R26 [] [Wkt.point (1/2) (3/2)] none none none).map
        (fun r => r.grid.map Tile.block_coords)
      = .ok [(0, 0, 2, 2), (2, 0, 2, 2), (4, 0, 2, 2)] := by
  refine ⟨rfl, by decide, ?_⟩
  rw [extract_geom]
  have hr : R26.rows = 2 := rfl
  have hc : R26.cols = 6 := rfl
  norm_num [tsOf, boOf, idsOf, parse_id_geom_list, parse_geoms, List.enum,
    List.enumFrom, hr, hc, grid26_eq]
  have ht0 : tile_intersects_point (mkTileAt R26 2 6 0 6 0 2 0 0) (1/2, 3/2) = true := by
    norm_num [tile_intersects_point, mkTileAt, get_coords, R26]
  have ht1 : tile_intersects_point (mkTileAt R26 2 6 0 6 0 2 2 0) (1/2, 3/2) = false := by
    norm_num [tile_intersects_point, mkTileAt, get_coords, R26]
  have ht2 : tile_intersects_point (mkTileAt R26 2 6 0 6 0 2 4 0) (1/2, 3/2) = false := by
    norm_num [tile_intersects_point, mkTileAt, get_coords, R26]
  have hsv : sample_value R26 (xrangeZ 0 R26.nb 1) (mkTileAt R26 2 6 0 6 0 2 0 0) (1/2, 3/2)
      = .ok [.fin 0] := by
    norm_num [sample_value, mkTileAt, get_coords, npCheck, R26]
  norm_num [run_tiles, process_tile, samp_of, List.enum, List.enumFrom, List.filter,
    map_values, ht0, ht1, ht2, hsv, mkTileAt_block, Except.map]

/-- Setting output slots preserves the slot-list length. -/
theorem foldl_set_length (l : List ((ℕ × String × ℚ × ℚ) × List Val))
    (sl : List (Option (String × List Val))) :
    (l.foldl (fun s pv => s.set pv.1.1 (some (pv.1.2.1, pv.2))) sl).length
      = sl.length := by
  induction l generalizing sl with
  | nil => rfl
  | cons p t ih => rw [List.foldl_cons, ih, List.length_set]

/-- One successful tile step preserves the slot-list length. -/
theorem process_tile_ok_length {R : Raster} {bo : List ℤ}
    {parts : List (String × ℚ × ℚ)} {st : EState} {t : Tile} {st2 : EState}
    (h : process_tile R bo parts st t = .ok st2) :
    st2.slots.length = st.slots.length := by
  simp only [process_tile] at h
  split at h
  · split at h
    · exact absurd h (by simp)
    · rw [Except.ok.injEq] at h
      subst h
      exact foldl_set_length _ _
  · rw [Except.ok.injEq] at h
    subst h
    rfl

/-- The tile loop with a cons grid: first process the head tile. -/
theorem run_tiles_cons (R : Raster) (bo : List ℤ) (parts : List (String × ℚ × ℚ))
    (st : EState) (t : Tile) (rest : List Tile) :
    run_tiles R bo parts st (t :: rest)
      = match process_tile R bo parts st t with
        | .error e => .error e
        | .ok st1 => run_tiles R bo parts st1 rest := rfl

/-- A successful tile loop preserves the slot-list length. -/
theorem run_tiles_ok_length {R : Raster} {bo : List ℤ}
    {parts : List (String × ℚ × ℚ)} {st st2 : EState} {grid : List Tile}
    (h : run_tiles R bo parts st grid = .ok st2) :
    st2.slots.length = st.slots.length := by
  induction grid generalizing st with
  | nil =>
      rw [run_tiles, Except.ok.injEq] at h
      subst h
      rfl
  | cons t rest ih =>
      rw [run_tiles_cons] at h
      cases hpt : process_tile R bo parts st t with
      | error e => rw [hpt] at h; exact absurd h (by simp)
      | ok st1 =>
          rw [hpt] at h
          exact (ih h).trans (process_tile_ok_length hpt)

/-- Slots whose index is set by no element of the update list are
unchanged by the fold. -/
theorem foldl_set_get_ne (l : List ((ℕ × String × ℚ × ℚ) × List Val))
    (sl : List (Option (String × List Val))) (i : ℕ)
    (h : ∀ pv ∈ l, pv.1.1 ≠ i) :
    (l.foldl (fun s pv => s.set pv.1.1 (some (pv.1.2.1, pv.2))) sl)[i]?
      = sl[i]? := by
  induction l generalizing sl with
  | nil => rfl
  | cons p t ih =>
      rw [List.foldl_cons, ih _ (fun pv hpv => h pv (List.mem_cons_of_mem _ hpv))]
      exact List.getElem?_set_ne (h p (List.mem_cons_self _ _))

/-- Members of the samp selection are enum entries of the parts list whose
geometry intersects the tile. -/
theorem mem_samp_of {parts : List (String × ℚ × ℚ)} {t : Tile}
    {p : ℕ × String × ℚ × ℚ} (h : p ∈ samp_of parts t) :
    parts[p.1]? = some p.2 ∧ tile_intersects_point t p.2.2 = true := by
  have h1 := List.mem_filter.mp h
  exact ⟨List.mem_enum_iff_getElem?.mp h1.1, h1.2⟩

/-- A successful tile step leaves a slot unchanged when the corresponding
part does not intersect the tile. -/
theorem process_tile_untouched {R : Raster} {bo : List ℤ}
    {parts : List (String × ℚ × ℚ)} {st : EState} {t : Tile} {st2 : EState}
    {i : ℕ} {p : String × ℚ × ℚ}
    (h : process_tile R bo parts st t = .ok st2)
    (hp : parts[i]? = some p)
    (hni : tile_intersects_point t p.2 = false) :
    st2.slots[i]? = st.slots[i]? := by
  simp only [process_tile] at h
  split at h
  · split at h
    · exact absurd h (by simp)
    · rw [Except.ok.injEq] at h
      subst h
      refine foldl_set_get_ne _ _ _ ?_
      intro pv hpv hcontra
      obtain ⟨pva, pvb⟩ := pv
      have h1 : pva ∈ samp_of parts t := (List.of_mem_zip hpv).1
      obtain ⟨hget, hint⟩ := mem_samp_of h1
      rw [hcontra, hp] at hget
      rw [Option.some.injEq] at hget
      rw [hget] at hni
      rw [hint] at hni
      exact Bool.noConfusion hni
  · rw [Except.ok.injEq] at h
    subst h
    rfl

/-- A successful tile loop leaves a slot unchanged when the corresponding
part intersects none of the tiles. -/
theorem run_tiles_untouched {R : Raster} {bo : List ℤ}
    {parts : List (String × ℚ × ℚ)} {st st2 : EState} {grid : List Tile}
    {i : ℕ} {p : String × ℚ × ℚ}
    (h : run_tiles R bo parts st grid = .ok st2)
    (hp : parts[i]? = some p)
    (hni : ∀ t ∈ grid, tile_intersects_point t p.2 = false) :
    st2.slots[i]? = st.slots[i]? := by
  induction grid generalizing st with
  | nil =>
      rw [run_tiles, Except.ok.injEq] at h
      subst h
      rfl
  | cons t rest ih =>
      rw [run_tiles_cons] at h
      cases hpt : process_tile R bo parts st t with
      | error e => rw [hpt] at h; exact absurd h (by simp)
      | ok st1 =>
          rw [hpt] at h
          have h2 := ih h (fun u hu => hni u (List.mem_cons_of_mem _ hu))
          rw [h2]
          exact process_tile_untouched hpt hp (hni t (List.mem_cons_self _ _))

/-- The slot-identifier invariant is preserved by the update fold when
every update carries the identifier of its own part. -/
theorem foldl_set_ids (parts : List (String × ℚ × ℚ))
    (l : List ((ℕ × String × ℚ × ℚ) × List Val))
    (sl : List (Option (String × List Val)))
    (hl : ∀ pv ∈ l, parts[pv.1.1]? = some pv.1.2)
    (hsl : slots_ids_ok parts sl) :
    slots_ids_ok parts
      (l.foldl (fun s pv => s.set pv.1.1 (some (pv.1.2.1, pv.2))) sl) := by
  induction l generalizing sl with
  | nil => exact hsl
  | cons p t ih =>
      rw [List.foldl_cons]
      refine ih _ (fun pv hpv => hl pv (List.mem_cons_of_mem _ hpv)) ?_
      intro i v hv
      by_cases hieq : p.1.1 = i
      · subst hieq
        rcases Nat.lt_or_ge p.1.1 sl.length with hlt | hge
        · rw [List.getElem?_set_eq_of_lt _ hlt, Option.some.injEq,
            Option.some.injEq] at hv
          refine ⟨p.1.2, hl p (List.mem_cons_self _ _), ?_⟩
          rw [← hv]
        · rw [List.set_eq_of_length_le hge] at hv
          exact hsl _ _ hv
      · rw [List.getElem?_set_ne hieq] at hv
        exact hsl _ _ hv

/-- A successful tile step preserves the slot-identifier invariant. -/
theorem process_tile_ids {R : Raster} {bo : List ℤ}
    {parts : List (String × ℚ × ℚ)} {st : EState} {t : Tile} {st2 : EState}
    (h : process_tile R bo parts st t = .ok st2)
    (hst : slots_ids_ok parts st.slots) : slots_ids_ok parts st2.slots := by
  simp only [process_tile] at h
  split at h
  · split at h
    · exact absurd h (by simp)
    · rw [Except.ok.injEq] at h
      subst h
      refine foldl_set_ids parts _ _ ?_ hst
      intro pv hpv
      obtain ⟨pva, pvb⟩ := pv
      exact (mem_samp_of ((List.of_mem_zip hpv).1)).1
  · rw [Except.ok.injEq] at h
    subst h
    exact hst

/-- A successful tile loop preserves the slot-identifier invariant. -/
theorem run_tiles_ids {R : Raster} {bo : List ℤ}
    {parts : List (String × ℚ × ℚ)} {st st2 : EState} {grid : List Tile}
    (h : run_tiles R bo parts st grid = .ok st2)
    (hst : slots_ids_ok parts st.slots) : slots_ids_ok parts st2.slots := by
  induction grid generalizing st with
  | nil =>
      rw [run_tiles, Except.ok.injEq] at h
      subst h
      exact hst
  | cons t rest ih =>
      rw [run_tiles_cons] at h
      cases hpt : process_tile R bo parts st t with
      | error e => rw [hpt] at h; exact absurd h (by simp)
      | ok st1 => rw [hpt] at h; exact ih h (process_tile_ids hpt hst)

/-- C10: every extract_geom call that returns normally returns exactly one
slot per parsed geometry part, in input order: the output length equals
the number of parsed parts, a part whose geometry intersects no tile of
the grid keeps its initial empty-list slot (modelled as `none`) rather
than being omitted or raising, and a filled slot carries the identifier of
the part at its own position. -/
theorem claim_C10 (R : Raster) (grid0 : List Tile) (wkts : List Wkt)
    (geom_id : Option (List String)) (band_order : Option (List ℤ))
    (tile_size : Option (ℤ × ℤ)) (res : ExtractResult)
    (parts : List (String × ℚ × ℚ))
    (hok : extract_geom R grid0 wkts geom_id band_order tile_size = .ok res)
    (hparse : parse_id_geom_list wkts (idsOf wkts geom_id) = .ok parts) :
    res.output.length = parts.length ∧
    ∀ (i : ℕ) (p : String × ℚ × ℚ), parts[i]? = some p →
      ((∀ t ∈ res.grid, tile_intersects_point t p.2 = false) →
        res.output[i]? = some none) ∧
      (∀ v : String × List Val, res.output[i]? = some (some v) → v.1 = p.1) := by
  rw [extract_geom] at hok
  simp only [hparse, make_tile_grid, get_pixel_bounds] at hok
  split at hok
  · exact absurd hok (by simp)
  · rename_i st hrun
    rw [Except.ok.injEq] at hok
    subst hok
    have hinit : parts[0]? = parts[0]? := rfl
    constructor
    · have h1 := run_tiles_ok_length hrun
      simpa using h1
    · intro i p hp
      constructor
      · intro hni
        have h2 := run_tiles_untouched hrun hp hni
        have h3 : (parts.map (fun _ => (none :
            Option (String × List Val))))[i]? = some none := by
          rw [List.getElem?_map, hp]
          rfl
        rw [h2]
        exact h3
      · intro v hv
        have h4 : slots_ids_ok parts
            (parts.map (fun _ => (none : Option (String × List Val)))) := by
          intro j w hw
          rw [List.getElem?_map] at hw
          cases hj : parts[j]? with
          | none => rw [hj] at hw; exact Option.noConfusion hw
          | some q =>
              rw [hj] at hw
              simp at hw
        have h5 := run_tiles_ids hrun h4
        obtain ⟨q, hq, hid⟩ := h5 i v hv
        rw [hp] at hq
        rw [Option.some.injEq] at hq
        rw [hid, hq]

/-- Evaluation of extract_geom on the spec's scenario point (2.5, 5.5)
plus a far-away point (100, 100): the call succeeds, reads one tile and
fills one slot (the band value array[2][2] = 22 of the first tile). -/
theorem extract10_eq :
    extract_geom R8 [] [Wkt.point (5/2) (11/2), Wkt.point 100 100] none none
      (some (4, 4)) = .ok RES10 := by
  rw [extract_geom]
  norm_num [tsOf, boOf, idsOf, parse_id_geom_list, parse_geoms, List.enum,
    List.enumFrom, List.range_succ, grid8_eq]
  have ht0A : tile_intersects_point (mkTileAt R8 4 4 0 8 0 8 0 0) (5/2, 11/2) = true := by
    norm_num [tile_intersects_point, mkTileAt, get_coords, R8]
  have ht1A : tile_intersects_point (mkTileAt R8 4 4 0 8 0 8 4 0) (5/2, 11/2) = false := by
    norm_num [tile_intersects_point, mkTileAt, get_coords, R8]
  have ht2A : tile_intersects_point (mkTileAt R8 4 4 0 8 0 8 0 4) (5/2, 11/2) = false := by
    norm_num [tile_intersects_point, mkTileAt, get_coords, R8]
  have ht3A : tile_intersects_point (mkTileAt R8 4 4 0 8 0 8 4 4) (5/2, 11/2) = false := by
    norm_num [tile_intersects_point, mkTileAt, get_coords, R8]
  have ht0B : tile_intersects_point (mkTileAt R8 4 4 0 8 0 8 0 0) (100, 100) = false := by
    norm_num [tile_intersects_point, mkTileAt, get_coords, R8]
  have ht1B : tile_intersects_point (mkTileAt R8 4 4 0 8 0 8 4 0) (100, 100) = false := by
    norm_num [tile_intersects_point, mkTileAt, get_coords, R8]
  have ht2B : tile_intersects_point (mkTileAt R8 4 4 0 8 0 8 0 4) (100, 100) = false := by
    norm_num [tile_intersects_point, mkTileAt, get_coords, R8]
  have ht3B : tile_intersects_point (mkTileAt R8 4 4 0 8 0 8 4 4) (100, 100) = false := by
    norm_num [tile_intersects_point, mkTileAt, get_coords, R8]
  have hsv : sample_value R8 (xrangeZ 0 R8.nb 1) (mkTileAt R8 4 4 0 8 0 8 0 0)
      (5/2, 11/2) = .ok [.fin 22] := by
    norm_num [sample_value, mkTileAt, get_coords, npCheck, R8]
  norm_num [run_tiles, process_tile, samp_of, List.enum, List.enumFrom, List.filter,
    map_values, ht0A, ht1A, ht2A, ht3A, ht0B, ht1B, ht2B, ht3B, hsv, RES10,
    mkTileAt_block]

/-- Witness for C10 on the two-point scenario call: the output has one
slot per parsed part (two), and the slot of the part that intersects no
tile holds the empty sentinel. -/
theorem claim_C10_witness :
    RES10.output.length = 2 ∧ RES10.output[1]? = some none := by
  have hparse : parse_id_geom_list [Wkt.point (5/2) (11/2), Wkt.point 100 100]
      (idsOf [Wkt.point (5/2) (11/2), Wkt.point 100 100] none)
      = .ok [(Nat.repr 1 ++ "_1", ((5 : ℚ)/2, (11 : ℚ)/2)),
             (Nat.repr 2 ++ "_1", ((100 : ℚ), (100 : ℚ)))] := by
    norm_num [parse_id_geom_list, parse_geoms, idsOf, List.enum, List.enumFrom,
      List.range_succ]
  obtain ⟨h1, h2⟩ := claim_C10 R8 [] _ none none (some (4, 4)) RES10 _
    extract10_eq hparse
  constructor
  · simpa using h1
  · refine (h2 1 (Nat.repr 2 ++ "_1", ((100 : ℚ), (100 : ℚ))) rfl).1 ?_
    intro t ht
    simp only [RES10, List.mem_cons, List.not_mem_nil, or_false] at ht
    rcases ht with rfl | rfl | rfl | rfl <;>
      norm_num [tile_intersects_point, mkTileAt, get_coords, R8]

/-- The block coordinates of a built grid, in row-major product form with
min-clipped edge sizes. -/
theorem grid_blocks_eq (R : Raster) (tw th xmin xmax ymin ymax : ℤ) :
    (make_tile_grid_tiles R tw th xmin xmax ymin ymax).map Tile.block_coords =
      (xrangeZ ymin ymax th).flatMap (fun y =>
        (xrangeZ xmin xmax tw).map (fun x =>
          (x, y, min tw (xmax - x), min th (ymax - y)))) := by
  simp only [make_tile_grid_tiles, List.map_flatMap, List.map_map, Function.comp_def,
    mkTileAt_block, clip_eq_min]

/-- Distinct tiles of one built grid have distinct block coordinates. -/
theorem blocks_nodup {R : Raster} {tw th xmin xmax ymin ymax : ℤ}
    (htw : 0 < tw) (hth : 0 < th) :
    ((make_tile_grid_tiles R tw th xmin xmax ymin ymax).map Tile.block_coords).Nodup := by
  rw [grid_blocks_eq, List.nodup_flatMap]
  constructor
  · intro y hy
    refine List.Nodup.map ?_ (nodup_xrangeZ htw)
    intro x1 x2 h
    simpa using congrArg Prod.fst h
  · refine (nodup_xrangeZ hth).imp ?_
    intro y1 y2 hne
    simp only [Function.onFun]
    intro a ha1 ha2
    obtain ⟨x1, -, hx1⟩ := List.mem_map.mp ha1
    obtain ⟨x2, -, hx2⟩ := List.mem_map.mp ha2
    apply hne
    have e1 := congrArg (fun q => q.2.1) hx1
    have e2 := congrArg (fun q => q.2.1) hx2
    exact e1.trans e2.symm

/-- The built tile list itself has no duplicates. -/
theorem tiles_nodup {R : Raster} {tw th xmin xmax ymin ymax : ℤ}
    (htw : 0 < tw) (hth : 0 < th) :
    (make_tile_grid_tiles R tw th xmin xmax ymin ymax).Nodup :=
  (blocks_nodup htw hth).of_map

/-- Success of the band-value comprehension gives success on each element. -/
theorem map_values_ok_forall {α β : Type} {f : α → Except Err β} {l : List α}
    {out : List β} (h : map_values f l = .ok out) :
    ∀ a ∈ l, ∃ v, f a = .ok v := by
  induction l generalizing out with
  | nil => intro a ha; exact absurd ha (List.not_mem_nil a)
  | cons b t ih =>
      rw [map_values] at h
      intro a ha
      cases hfb : f b with
      | error e =>
          simp only [hfb] at h
          exact absurd h (by simp)
      | ok v =>
          simp only [hfb] at h
          cases hmv : map_values f t with
          | error e =>
              simp only [hmv] at h
              exact absurd h (by simp)
          | ok vs =>
              simp only [hmv] at h
              rcases List.mem_cons.mp ha with rfl | hat
              · exact ⟨v, hfb⟩
              · exact ih hmv a hat

/-- Success of one tile step: either no geometry intersects and the state
is unchanged, or the tile block was appended to the reads and every
selected geometry sampled successfully. -/
theorem process_tile_ok_char {R : Raster} {bo : List ℤ}
    {parts : List (String × ℚ × ℚ)} {st : EState} {t : Tile} {st1 : EState}
    (h : process_tile R bo parts st t = .ok st1) :
    ((samp_of parts t).length = 0 ∧ st1 = st) ∨
    (0 < (samp_of parts t).length ∧ st1.reads = st.reads ++ [t.block_coords] ∧
      ∀ p ∈ samp_of parts t, ∃ v, sample_value R bo t p.2.2 = .ok v) := by
  simp only [process_tile] at h
  split at h
  · rename_i hpos
    split at h
    · exact absurd h (by simp)
    · rename_i vals hmv
      rw [Except.ok.injEq] at h
      subst h
      right
      exact ⟨hpos, rfl, fun p hp => map_values_ok_forall hmv p hp⟩
  · rename_i hneg
    rw [Except.ok.injEq] at h
    subst h
    left
    exact ⟨by omega, rfl⟩

/-- A successful tile loop appends exactly the blocks of the tiles with at
least one intersecting geometry, in grid order, and every selected
geometry of every tile sampled successfully. -/
theorem run_tiles_ok_reads {R : Raster} {bo : List ℤ}
    {parts : List (String × ℚ × ℚ)} {st st2 : EState} {grid : List Tile}
    (h : run_tiles R bo parts st grid = .ok st2) :
    st2.reads = st.reads ++
      (grid.filter (fun t => decide (0 < (samp_of parts t).length))).map
        Tile.block_coords ∧
    ∀ t ∈ grid, ∀ p ∈ samp_of parts t, ∃ v, sample_value R bo t p.2.2 = .ok v := by
  induction grid generalizing st with
  | nil =>
      rw [run_tiles, Except.ok.injEq] at h
      subst h
      exact ⟨by simp, by simp⟩
  | cons t rest ih =>
      rw [run_tiles_cons] at h
      cases hpt : process_tile R bo parts st t with
      | error e => rw [hpt] at h; exact absurd h (by simp)
      | ok st1 =>
          rw [hpt] at h
          obtain ⟨ha, hb⟩ := ih h
          rcases process_tile_ok_char hpt with ⟨hz, rfl⟩ | ⟨hpos, hr, hv⟩
          · have hft : decide (0 < (samp_of parts t).length) = false := by simp [hz]
            constructor
            · rw [ha]
              simp [List.filter_cons, hft]
            · intro u hu p hp
              rcases List.mem_cons.mp hu with rfl | hu2
              · rw [List.length_eq_zero] at hz
                rw [hz] at hp
                exact absurd hp (List.not_mem_nil p)
              · exact hb u hu2 p hp
          · have hft : decide (0 < (samp_of parts t).length) = true := by
              simpa using hpos
            constructor
            · rw [ha, hr]
              simp [List.filter_cons, hft]
            · intro u hu p hp
              rcases List.mem_cons.mp hu with rfl | hu2
              · exact hv p hp
              · exact hb u hu2 p hp

/-- A successful numpy bounds check means the indices were in range. -/
theorem npCheck_ok_bounds {rows cols y x : ℤ} {iyx : ℤ × ℤ}
    (h : npCheck rows cols y x = .ok iyx) :
    -rows ≤ y ∧ y < rows ∧ -cols ≤ x ∧ x < cols := by
  unfold npCheck at h
  split at h
  · assumption
  · exact absurd h (by simp)

/-- A successful sample passes the numpy bounds check on the tile array. -/
theorem sample_value_ok_npCheck {R : Raster} {bo : List ℤ} {t : Tile} {g : ℚ × ℚ}
    {vs : List Val} (h : sample_value R bo t g = .ok vs) :
    ∃ iyx, npCheck t.block_coords.2.2.2 t.block_coords.2.2.1
      ⌊(g.2 - t.tie_point.2) / R.t5⌋ ⌊(g.1 - t.tie_point.1) / R.t1⌋ = .ok iyx := by
  simp only [sample_value] at h
  split at h
  · exact absurd h (by simp)
  · rename_i iyx hnp
    exact ⟨iyx, hnp⟩

/-- For a north-up transform (positive pixel width, negative pixel height),
a geometry that intersects a grid tile and samples successfully lies in
the tile's half-open pixel footprint: its x offset from the raster origin
is in [t1·x, t1·(x+c)) and its y offset in (t5·(y+r), t5·y], where
(x, y, c, r) are the tile's clipped block coordinates. -/
theorem sample_ok_strict {R : Raster} {bo : List ℤ}
    {tw th xmin xmax ymin ymax x y : ℤ}
    (ht1 : 0 < R.t1) (ht5 : R.t5 < 0) (htw : 0 < tw) (hth : 0 < th)
    (hx : x ∈ xrangeZ xmin xmax tw) (hy : y ∈ xrangeZ ymin ymax th)
    {g : ℚ × ℚ}
    (hint : tile_intersects_point (mkTileAt R tw th xmin xmax ymin ymax x y) g = true)
    (hsv : ∃ vs, sample_value R bo (mkTileAt R tw th xmin xmax ymin ymax x y) g
      = .ok vs) :
    ((x : ℚ) * R.t1 ≤ g.1 - R.t0 ∧
      g.1 - R.t0 < ((x : ℚ) + ((min tw (xmax - x) : ℤ) : ℚ)) * R.t1) ∧
    (((y : ℚ) + ((min th (ymax - y) : ℤ) : ℚ)) * R.t5 < g.2 - R.t3 ∧
      g.2 - R.t3 ≤ (y : ℚ) * R.t5) := by
  obtain ⟨-, -, hxlt⟩ := (mem_xrangeZ htw).mp hx
  obtain ⟨-, -, hylt⟩ := (mem_xrangeZ hth).mp hy
  have hcpos : 0 < min tw (xmax - x) := by omega
  have hrpos : 0 < min th (ymax - y) := by omega
  have hcq : (0 : ℚ) < ((min tw (xmax - x) : ℤ) : ℚ) := by exact_mod_cast hcpos
  have hrq : (0 : ℚ) < ((min th (ymax - y) : ℤ) : ℚ) := by exact_mod_cast hrpos
  obtain ⟨vs, hv⟩ := hsv
  obtain ⟨iyx, hnp⟩ := sample_value_ok_npCheck hv
  have hb := npCheck_ok_bounds hnp
  rw [mkTileAt_block, mkTileAt_tie] at hb
  simp only [clip_eq_min] at hb
  simp only [tile_intersects_point, mkTileAt, get_coords, List.map_cons, List.map_nil,
    List.headD, List.drop, clip_eq_min, decide_eq_true_eq, Bool.false_eq_true,
    if_false, add_zero] at hint
  obtain ⟨i1, i2, i3, i4⟩ := hint
  have hmc : R.t1 * ((min tw (xmax - x) : ℤ) : ℚ) ≥ 0 := by positivity
  have hmr : R.t5 * ((min th (ymax - y) : ℤ) : ℚ) ≤ 0 := by
    exact mul_nonpos_of_nonpos_of_nonneg ht5.le hrq.le
  rw [min_eq_left (by linarith)] at i1
  rw [max_eq_right (by linarith)] at i2
  rw [min_eq_right (by linarith)] at i3
  rw [max_eq_left (by linarith)] at i4
  have hx2 : (g.1 - ((x : ℚ) * R.t1 + R.t0)) / R.t1 < ((min tw (xmax - x) : ℤ) : ℚ) :=
    Int.floor_lt.mp hb.2.2.2
  have hx3 : g.1 - ((x : ℚ) * R.t1 + R.t0)
      < ((min tw (xmax - x) : ℤ) : ℚ) * R.t1 := (div_lt_iff ht1).mp hx2
  have hy2 : (g.2 - ((y : ℚ) * R.t5 + R.t3)) / R.t5 < ((min th (ymax - y) : ℤ) : ℚ) :=
    Int.floor_lt.mp hb.2.1
  have hy3 : ((min th (ymax - y) : ℤ) : ℚ) * R.t5
      < g.2 - ((y : ℚ) * R.t5 + R.t3) := (div_lt_iff_of_neg ht5).mp hy2
  have hex : ((x : ℚ) + ((min tw (xmax - x) : ℤ) : ℚ)) * R.t1
      = (x : ℚ) * R.t1 + ((min tw (xmax - x) : ℤ) : ℚ) * R.t1 := by ring
  have hey : ((y : ℚ) + ((min th (ymax - y) : ℤ) : ℚ)) * R.t5
      = (y : ℚ) * R.t5 + ((min th (ymax - y) : ℤ) : ℚ) * R.t5 := by ring
  refine ⟨⟨by linarith, by linarith⟩, ⟨by linarith, by linarith⟩⟩

/-- Two tiles of the same grid whose half-open pixel footprints share an x
offset have the same x position. -/
theorem strict_unique_x {t1 : ℚ} (ht1 : 0 < t1) {tw xmin xmax x1 x2 : ℤ}
    (htw : 0 < tw)
    (hx1 : x1 ∈ xrangeZ xmin xmax tw) (hx2 : x2 ∈ xrangeZ xmin xmax tw)
    {q : ℚ}
    (h1a : (x1 : ℚ) * t1 ≤ q)
    (h1b : q < ((x1 : ℚ) + ((min tw (xmax - x1) : ℤ) : ℚ)) * t1)
    (h2a : (x2 : ℚ) * t1 ≤ q)
    (h2b : q < ((x2 : ℚ) + ((min tw (xmax - x2) : ℤ) : ℚ)) * t1) :
    x1 = x2 := by
  obtain ⟨k1, e1, lt1⟩ := (mem_xrangeZ htw).mp hx1
  obtain ⟨k2, e2, lt2⟩ := (mem_xrangeZ htw).mp hx2
  rcases lt_trichotomy k1 k2 with hk | hk | hk
  · exfalso
    have h3 : (k1 : ℤ) + 1 ≤ (k2 : ℤ) := by exact_mod_cast hk
    have h4 : x1 + tw ≤ x2 := by nlinarith [mul_le_mul_of_nonneg_right h3 htw.le]
    have hstep : x1 + min tw (xmax - x1) ≤ x2 := by omega
    have hcast : ((x1 : ℚ) + ((min tw (xmax - x1) : ℤ) : ℚ)) ≤ (x2 : ℚ) := by
      exact_mod_cast hstep
    have h5 : ((x1 : ℚ) + ((min tw (xmax - x1) : ℤ) : ℚ)) * t1 ≤ (x2 : ℚ) * t1 :=
      mul_le_mul_of_nonneg_right hcast ht1.le
    linarith
  · rw [e1, e2, hk]
  · exfalso
    have h3 : (k2 : ℤ) + 1 ≤ (k1 : ℤ) := by exact_mod_cast hk
    have h4 : x2 + tw ≤ x1 := by nlinarith [mul_le_mul_of_nonneg_right h3 htw.le]
    have hstep : x2 + min tw (xmax - x2) ≤ x1 := by omega
    have hcast : ((x2 : ℚ) + ((min tw (xmax - x2) : ℤ) : ℚ)) ≤ (x1 : ℚ) := by
      exact_mod_cast hstep
    have h5 : ((x2 : ℚ) + ((min tw (xmax - x2) : ℤ) : ℚ)) * t1 ≤ (x1 : ℚ) * t1 :=
      mul_le_mul_of_nonneg_right hcast ht1.le
    linarith

/-- Two tiles of the same grid whose half-open pixel footprints share a y
offset have the same y position (pixel height negative). -/
theorem strict_unique_y {t5 : ℚ} (ht5 : t5 < 0) {th ymin ymax y1 y2 : ℤ}
    (hth : 0 < th)
    (hy1 : y1 ∈ xrangeZ ymin ymax th) (hy2 : y2 ∈ xrangeZ ymin ymax th)
    {q : ℚ}
    (h1a : ((y1 : ℚ) + ((min th (ymax - y1) : ℤ) : ℚ)) * t5 < q)
    (h1b : q ≤ (y1 : ℚ) * t5)
    (h2a : ((y2 : ℚ) + ((min th (ymax - y2) : ℤ) : ℚ)) * t5 < q)
    (h2b : q ≤ (y2 : ℚ) * t5) :
    y1 = y2 := by
  obtain ⟨k1, e1, lt1⟩ := (mem_xrangeZ hth).mp hy1
  obtain ⟨k2, e2, lt2⟩ := (mem_xrangeZ hth).mp hy2
  rcases lt_trichotomy k1 k2 with hk | hk | hk
  · exfalso
    have h3 : (k1 : ℤ) + 1 ≤ (k2 : ℤ) := by exact_mod_cast hk
    have h4 : y1 + th ≤ y2 := by nlinarith [mul_le_mul_of_nonneg_right h3 hth.le]
    have hstep : y1 + min th (ymax - y1) ≤ y2 := by omega
    have hcast : ((y1 : ℚ) + ((min th (ymax - y1) : ℤ) : ℚ)) ≤ (y2 : ℚ) := by
      exact_mod_cast hstep
    have h5 : (y2 : ℚ) * t5 ≤ ((y1 : ℚ) + ((min th (ymax - y1) : ℤ) : ℚ)) * t5 :=
      mul_le_mul_of_nonpos_right hcast ht5.le
    linarith
  · rw [e1, e2, hk]
  · exfalso
    have h3 : (k2 : ℤ) + 1 ≤ (k1 : ℤ) := by exact_mod_cast hk
    have h4 : y2 + th ≤ y1 := by nlinarith [mul_le_mul_of_nonneg_right h3 hth.le]
    have hstep : y2 + min th (ymax - y2) ≤ y1 := by omega
    have hcast : ((y2 : ℚ) + ((min th (ymax - y2) : ℤ) : ℚ)) ≤ (y1 : ℚ) := by
      exact_mod_cast hstep
    have h5 : (y1 : ℚ) * t5 ≤ ((y2 : ℚ) + ((min th (ymax - y2) : ℤ) : ℚ)) * t5 :=
      mul_le_mul_of_nonpos_right hcast ht5.le
    linarith

/-- C4: on a fresh raster (empty tile grid) with a north-up transform and
positive tile sizes, a normally returning extract_geom call reads a tile
block only if at least one parsed geometry intersects that tile's
boundary-ring polygon, reads each such tile at most once (the recorded
blocks have no duplicates), and performs at most one read per parsed
point: the number of read invocations is bounded by the number of parsed
geometry parts, never the full grid. -/
theorem claim_C4 (R : Raster) (wkts : List Wkt) (geom_id : Option (List String))
    (band_order : Option (List ℤ)) (tile_size : Option (ℤ × ℤ))
    (res : ExtractResult) (parts : List (String × ℚ × ℚ))
    (ht1 : 0 < R.t1) (ht5 : R.t5 < 0)
    (htw : 0 < (tsOf R tile_size).1) (hth : 0 < (tsOf R tile_size).2)
    (hok : extract_geom R [] wkts geom_id band_order tile_size = .ok res)
    (hparse : parse_id_geom_list wkts (idsOf wkts geom_id) = .ok parts) :
    (∀ blk ∈ res.reads, ∃ t ∈ res.grid, t.block_coords = blk ∧
      ∃ p ∈ parts, tile_intersects_point t p.2 = true) ∧
    res.reads.Nodup ∧
    res.reads.length ≤ parts.length := by
  rw [extract_geom] at hok
  simp only [hparse, make_tile_grid, get_pixel_bounds, List.nil_append] at hok
  split at hok
  · exact absurd hok (by simp)
  · rename_i st hrun
    rw [Except.ok.injEq] at hok
    subst hok
    obtain ⟨hreads, hval⟩ := run_tiles_ok_reads hrun
    simp only [List.nil_append] at hreads
    refine ⟨?_, ?_, ?_⟩
    · intro blk hblk
      rw [hreads] at hblk
      obtain ⟨t, htF, rfl⟩ := List.mem_map.mp hblk
      have htmem := List.mem_filter.mp htF
      refine ⟨t, htmem.1, rfl, ?_⟩
      have hlen : 0 < (samp_of parts t).length := by simpa using htmem.2
      have hne : samp_of parts t ≠ [] := by
        intro hnil
        rw [hnil] at hlen
        simp at hlen
      obtain ⟨p, hp⟩ := List.exists_mem_of_ne_nil _ hne
      obtain ⟨hg, hi⟩ := mem_samp_of hp
      obtain ⟨hlt, hgeq⟩ := List.getElem?_eq_some_iff.mp hg
      refine ⟨p.2, ?_, hi⟩
      rw [← hgeq]
      exact List.getElem_mem hlt
    · rw [hreads]
      exact List.Nodup.sublist (List.Sublist.map _ (List.filter_sublist _))
        (blocks_nodup htw hth)
    · rw [hreads, List.length_map]
      set f : Tile → ℕ := fun t =>
        match samp_of parts t with
        | [] => 0
        | p :: _ => p.1 with hf
      have hFnodup : ((make_tile_grid_tiles R (tsOf R tile_size).1 (tsOf R tile_size).2
          0 R.cols 0 R.rows).filter
            (fun t => decide (0 < (samp_of parts t).length))).Nodup :=
        List.Nodup.sublist (List.filter_sublist _) (tiles_nodup htw hth)
      have hinj : ∀ u ∈ (make_tile_grid_tiles R (tsOf R tile_size).1
            (tsOf R tile_size).2 0 R.cols 0 R.rows).filter
              (fun t => decide (0 < (samp_of parts t).length)),
          ∀ v ∈ (make_tile_grid_tiles R (tsOf R tile_size).1 (tsOf R tile_size).2
            0 R.cols 0 R.rows).filter
              (fun t => decide (0 < (samp_of parts t).length)),
          f u = f v → u = v := by
        intro u hu v hv huv
        have hu2 := List.mem_filter.mp hu
        have hv2 := List.mem_filter.mp hv
        have hlenu : 0 < (samp_of parts u).length := by simpa using hu2.2
        have hlenv : 0 < (samp_of parts v).length := by simpa using hv2.2
        obtain ⟨yu, hyu, xu, hxu, rfl⟩ := mem_grid_tiles.mp hu2.1
        obtain ⟨yv, hyv, xv, hxv, rfl⟩ := mem_grid_tiles.mp hv2.1
        cases hsu : samp_of parts (mkTileAt R (tsOf R tile_size).1 (tsOf R tile_size).2
            0 R.cols 0 R.rows xu yu) with
        | nil => rw [hsu] at hlenu; simp at hlenu
        | cons pu _ =>
        cases hsv : samp_of parts (mkTileAt R (tsOf R tile_size).1 (tsOf R tile_size).2
            0 R.cols 0 R.rows xv yv) with
        | nil => rw [hsv] at hlenv; simp at hlenv
        | cons pv _ =>
        have hfu : f (mkTileAt R (tsOf R tile_size).1 (tsOf R tile_size).2
            0 R.cols 0 R.rows xu yu) = pu.1 := by simp only [hf, hsu]
        have hfv : f (mkTileAt R (tsOf R tile_size).1 (tsOf R tile_size).2
            0 R.cols 0 R.rows xv yv) = pv.1 := by simp only [hf, hsv]
        have hidx : pu.1 = pv.1 := by rw [← hfu, ← hfv, huv]
        have hpu : pu ∈ samp_of parts (mkTileAt R (tsOf R tile_size).1
            (tsOf R tile_size).2 0 R.cols 0 R.rows xu yu) := by
          rw [hsu]
          exact List.mem_cons_self _ _
        have hpv : pv ∈ samp_of parts (mkTileAt R (tsOf R tile_size).1
            (tsOf R tile_size).2 0 R.cols 0 R.rows xv yv) := by
          rw [hsv]
          exact List.mem_cons_self _ _
        obtain ⟨hgu, hiu⟩ := mem_samp_of hpu
        obtain ⟨hgv, hiv⟩ := mem_samp_of hpv
        have hq : pu.2 = pv.2 := by
          rw [hidx, hgv] at hgu
          exact (Option.some.injEq _ _).mp hgu.symm
        have hsvu := hval _ hu2.1 pu hpu
        have hsvv0 := hval _ hv2.1 pv hpv
        have hiv2 : tile_intersects_point (mkTileAt R (tsOf R tile_size).1
            (tsOf R tile_size).2 0 R.cols 0 R.rows xv yv) pu.2.2 = true := by
          rw [hq]
          exact hiv
        have hsvv : ∃ vs, sample_value R (boOf R band_order)
            (mkTileAt R (tsOf R tile_size).1 (tsOf R tile_size).2 0 R.cols 0 R.rows
              xv yv) pu.2.2 = .ok vs := by
          rw [hq]
          exact hsvv0
        have hSu := sample_ok_strict ht1 ht5 htw hth hxu hyu hiu hsvu
        have hSv := sample_ok_strict ht1 ht5 htw hth hxv hyv hiv2 hsvv
        have hxeq := strict_unique_x ht1 htw hxu hxv hSu.1.1 hSu.1.2 hSv.1.1 hSv.1.2
        have hyeq := strict_unique_y ht5 hth hyu hyv hSu.2.1 hSu.2.2 hSv.2.1 hSv.2.2
        rw [hxeq, hyeq]
      have hmapnodup := List.Nodup.map_on hinj hFnodup
      have hbound : ∀ n ∈ ((make_tile_grid_tiles R (tsOf R tile_size).1
          (tsOf R tile_size).2 0 R.cols 0 R.rows).filter
            (fun t => decide (0 < (samp_of parts t).length))).map f,
          n < parts.length := by
        intro n hn
        obtain ⟨t, htF, rfl⟩ := List.mem_map.mp hn
        have htmem := List.mem_filter.mp htF
        have hlen : 0 < (samp_of parts t).length := by simpa using htmem.2
        cases hst : samp_of parts t with
        | nil => rw [hst] at hlen; simp at hlen
        | cons p tail =>
            have hft : f t = p.1 := by simp only [hf, hst]
            have hpmem : p ∈ samp_of parts t := by
              rw [hst]
              exact List.mem_cons_self _ _
            obtain ⟨hg, -⟩ := mem_samp_of hpmem
            obtain ⟨hlt, -⟩ := List.getElem?_eq_some_iff.mp hg
            rw [hft]
            exact hlt
      calc ((make_tile_grid_tiles R (tsOf R tile_size).1 (tsOf R tile_size).2
            0 R.cols 0 R.rows).filter
              (fun t => decide (0 < (samp_of parts t).length))).length
          = (((make_tile_grid_tiles R (tsOf R tile_size).1 (tsOf R tile_size).2
            0 R.cols 0 R.rows).filter
              (fun t => decide (0 < (samp_of parts t).length))).map f).length := by
            rw [List.length_map]
        _ = (((make_tile_grid_tiles R (tsOf R tile_size).1 (tsOf R tile_size).2
            0 R.cols 0 R.rows).filter
              (fun t => decide (0 < (samp_of parts t).length))).map f).toFinset.card :=
            (List.toFinset_card_of_nodup hmapnodup).symm
        _ ≤ (Finset.range parts.length).card := by
            apply Finset.card_le_card
            intro n hn
            rw [List.mem_toFinset] at hn
            rw [Finset.mem_range]
            exact hbound n hn
        _ = parts.length := Finset.card_range _

/-- Evaluation of extract_geom on the single interior point (0.5, 7.5) of
the 8 × 8 scenario raster: one tile is read. -/
theorem extract4_eq :
    extract_geom R8 [] [Wkt.point (1/2) (15/2)] none none (some (4, 4))
      = .ok RES4 := by
  rw [extract_geom]
  norm_num [tsOf, boOf, idsOf, parse_id_geom_list, parse_geoms, List.enum,
    List.enumFrom, grid8_eq]
  have ht0 : tile_intersects_point (mkTileAt R8 4 4 0 8 0 8 0 0) (1/2, 15/2) = true := by
    norm_num [tile_intersects_point, mkTileAt, get_coords, R8]
  have ht1 : tile_intersects_point (mkTileAt R8 4 4 0 8 0 8 4 0) (1/2, 15/2) = false := by
    norm_num [tile_intersects_point, mkTileAt, get_coords, R8]
  have ht2 : tile_intersects_point (mkTileAt R8 4 4 0 8 0 8 0 4) (1/2, 15/2) = false := by
    norm_num [tile_intersects_point, mkTileAt, get_coords, R8]
  have ht3 : tile_intersects_point (mkTileAt R8 4 4 0 8 0 8 4 4) (1/2, 15/2) = false := by
    norm_num [tile_intersects_point, mkTileAt, get_coords, R8]
  have hsv : sample_value R8 (xrangeZ 0 R8.nb 1) (mkTileAt R8 4 4 0 8 0 8 0 0)
      (1/2, 15/2) = .ok [.fin 0] := by
    norm_num [sample_value, mkTileAt, get_coords, npCheck, R8]
  norm_num [run_tiles, process_tile, samp_of, List.enum, List.enumFrom, List.filter,
    map_values, ht0, ht1, ht2, ht3, hsv, RES4, mkTileAt_block]

/-- Witness for C4 at the concrete one-point call: the transform is
north-up, the call succeeds, the recorded reads have no duplicates, and
their count is bounded by the single parsed part. -/
theorem claim_C4_witness :
    (0 : ℚ) < R8.t1 ∧ RES4.reads.Nodup ∧
    RES4.reads.length ≤ [(Nat.repr 1 ++ "_1", ((1 : ℚ)/2, (15 : ℚ)/2))].length := by
  have hparse : parse_id_geom_list [Wkt.point (1/2) (15/2)]
      (idsOf [Wkt.point (1/2) (15/2)] none)
      = .ok [(Nat.repr 1 ++ "_1", ((1 : ℚ)/2, (15 : ℚ)/2))] := by
    norm_num [parse_id_geom_list, parse_geoms, idsOf, List.enum, List.enumFrom,
      List.range_succ]
  obtain ⟨-, h2, h3⟩ := claim_C4 R8 [Wkt.point (1/2) (15/2)] none none (some (4, 4))
    RES4 [(Nat.repr 1 ++ "_1", ((1 : ℚ)/2, (15 : ℚ)/2))]
    (by norm_num [R8]) (by norm_num [R8]) (by decide) (by decide)
    extract4_eq hparse
  exact ⟨by norm_num [R8], h2, h3⟩

end Alaska
